import Mathlib

/-!
Shallow embedding of the Marketplace-Web scraper (`src/scraper.py`).

Modelling conventions:
* A pandas `DataFrame` of listings is a `List ListingRecord`; every column is a
  string, as the aggregator coerces all columns with `.astype(str)`.
* Python `None`/absent attributes that only feed `or`-chains over strings are
  modelled as `""` (Python treats `None` and `""` identically there).
* `str.strip` / `str.split()` / `str.lower` are modelled character-wise over
  `List Char` (`Char.isWhitespace`, `Char.toLower`); the model is ASCII-faithful,
  which covers every value the claims exercise.
* Python `int(...)` on strings is modelled without the underscore-separator
  syntax, which no input of the claims uses.
* Network fetches and BeautifulSoup/regex node queries are the external
  collaborators: an extractor receives the per-node attribute texts as input,
  while every computation the source performs on those texts is modelled.
-/

/-- Digits of a decimal string folded into a number, as Python `int` reads a
digit-only string. -/
def natOfDigits (l : List Char) : Nat :=
  l.foldl (fun n c => 10 * n + (c.toNat - 48)) 0

/-- Left strip of whitespace, as in Python `str.lstrip`. -/
def lstripL (l : List Char) : List Char :=
  l.dropWhile Char.isWhitespace

/-- Both-ends strip of whitespace over characters, as in Python `str.strip`. -/
def pyStripL (l : List Char) : List Char :=
  ((lstripL l).reverse.dropWhile Char.isWhitespace).reverse

/-- Python `str.strip` on strings. -/
def pyStrip (s : String) : String :=
  ⟨pyStripL s.data⟩

/-- Python `str.lower`, character-wise (ASCII model). -/
def pyLower (s : String) : String :=
  ⟨s.data.map Char.toLower⟩

/-- Contiguous-substring test over characters: Python `pat in l`. -/
def containsL (l pat : List Char) : Bool :=
  l.tails.any (fun t => pat.isPrefixOf t)

/-- Contiguous-substring test on strings: Python `pat in s`. -/
def strContains (s pat : String) : Bool :=
  containsL s.data pat.data

/-- Python `s.startswith(pat)`, character-wise. -/
def pyStartsWith (s pat : String) : Bool :=
  pat.data.isPrefixOf s.data

/-- Tokenizer behind Python `str.split()`: splits on runs of whitespace and
drops empty pieces.  `cur` holds the reversed current token. -/
def wordsAux (cur : List Char) : List Char → List (List Char)
  | [] => if cur.isEmpty then [] else [cur.reverse]
  | c :: cs =>
    if c.isWhitespace then
      if cur.isEmpty then wordsAux [] cs else cur.reverse :: wordsAux [] cs
    else wordsAux (c :: cur) cs

/-- Python `str.split()` with no separator argument. -/
def pySplit (s : String) : List String :=
  (wordsAux [] s.data).map (fun l => ⟨l⟩)

/-- Whitespace-run collapsing used by `_extract_int_from_text`
(`re.sub(r"\s+", " ", text)`); the flag records whether the previous kept
character was a whitespace. -/
def collapseWS (prevWs : Bool) : List Char → List Char
  | [] => []
  | c :: cs =>
    if c.isWhitespace then
      if prevWs then collapseWS true cs else ' ' :: collapseWS true cs
    else c :: collapseWS false cs

/-- First maximal run of digits of a text, read as a number
(`re.search(r"(\d+)", text)` followed by `int`). -/
def firstDigitRun : List Char → Option Nat
  | [] => none
  | c :: cs =>
    if c.isDigit then some (natOfDigits (c :: cs.takeWhile Char.isDigit))
    else firstDigitRun cs

/-- `_extract_int_from_text` of `src/scraper.py`: strip, collapse whitespace,
return the first run of digits as an integer, else nothing. -/
def extract_int_from_text (s : String) : Option Nat :=
  firstDigitRun (collapseWS false (pyStripL s.data))

/-- Python `int(str)` as used on the request strings: optional surrounding
whitespace, optional sign, then a nonempty digit string; anything else raises,
modelled as `none`. -/
def pythonInt (s : String) : Option Int :=
  match pyStripL s.data with
  | [] => none
  | c :: cs =>
    if c = '+' then
      if cs ≠ [] ∧ cs.all Char.isDigit then some (natOfDigits cs) else none
    else if c = '-' then
      if cs ≠ [] ∧ cs.all Char.isDigit then some (-(natOfDigits cs : Int)) else none
    else if (c :: cs).all Char.isDigit then some (natOfDigits (c :: cs))
    else none

/-- `parse_precio_con_moneda` of `src/scraper.py`: the currency tag is `"S"`
(local) when `"S/"` occurs (or the stripped text starts with it), else `"USD"`
(foreign) when `"$"` occurs; the value is every digit of the text concatenated,
`none` when there is no digit.  A falsy (empty) input yields `(none, none)`. -/
def parse_precio_con_moneda (precio_str : String) : Option String × Option Nat :=
  if precio_str = "" then (none, none)
  else
    let s := precio_str.data
    let moneda : Option String :=
      if containsL s "S/".data || "S/".data.isPrefixOf (pyStripL s) then some "S"
      else if containsL s "$".data then some "USD"
      else none
    let nums := s.filter Char.isDigit
    if nums.isEmpty then (moneda, none) else (moneda, some (natOfDigits nums))

/-- `_parse_price_soles` of `src/scraper.py`: the parsed value only when the
currency tag is the local `"S"`. -/
def parse_price_soles (s : String) : Option Nat :=
  match parse_precio_con_moneda s with
  | (some m, v) => if m = "S" then v else none
  | (none, _) => none

/-- One listing row: the eight columns every extractor emits. -/
structure ListingRecord where
  titulo : String
  precio : String
  m2 : String
  dormitorios : String
  banos : String  -- column "baños" of the source
  descripcion : String
  link : String
  imagen_url : String
deriving DecidableEq

/-- Count-request clause of `_filter_df_strict`'s mask, shared by the two
textually parallel bedrooms/bathrooms blocks of the source: active only when
the request is truthy, nonempty after strip and not `"0"`; a request whose
`int` fails to parse leaves the mask untouched (the bare `except: pass`). -/
def mask_req (req : String) (cell : String) : Bool :=
  if req ≠ "" ∧ pyStrip req ≠ "" ∧ req ≠ "0" then
    match pythonInt req with
    | some k =>
      match extract_int_from_text cell with
      | some d => (d : Int) == k
      | none => false
    | none => true
  else true

/-- Bedrooms clause of `_filter_df_strict`'s mask. -/
def mask_dorm (dormitorios_req : String) (r : ListingRecord) : Bool :=
  mask_req dormitorios_req r.dormitorios

/-- Bathrooms clause of `_filter_df_strict`'s mask. -/
def mask_banos (banos_req : String) (r : ListingRecord) : Bool :=
  mask_req banos_req r.banos

/-- Price clause of `_filter_df_strict`'s mask: when a bound is present the
local-currency value must exist and sit within the bounds, absent bounds being
replaced by the sentinels `-10^12` and `10^12`. -/
def mask_price (price_min price_max : Option Int) (r : ListingRecord) : Bool :=
  if price_min.isSome || price_max.isSome then
    match parse_price_soles r.precio with
    | some v =>
      decide (price_min.getD (-(10 ^ 12)) ≤ (v : Int)) &&
      decide ((v : Int) ≤ price_max.getD (10 ^ 12))
    | none => false
  else true

/-- Whole row mask of `_filter_df_strict`. -/
def strict_mask (dormitorios_req banos_req : String) (price_min price_max : Option Int)
    (r : ListingRecord) : Bool :=
  mask_dorm dormitorios_req r && mask_banos banos_req r && mask_price price_min price_max r

/-- `_filter_df_strict` of `src/scraper.py`: empty input short-circuits to an
empty frame, otherwise the rows satisfying the mask are kept (the helper
columns the code adds are dropped again before returning). -/
def filter_df_strict (df : List ListingRecord) (dormitorios_req banos_req : String)
    (price_min price_max : Option Int) : List ListingRecord :=
  if df.isEmpty then []
  else df.filter (strict_mask dormitorios_req banos_req price_min price_max)

/-- Lowered concatenation `texto_completo` built by `_filter_by_keywords`. -/
def texto_completo (r : ListingRecord) : String :=
  pyLower (r.titulo ++ " " ++ r.descripcion ++ " " ++ r.m2 ++ " " ++
    r.dormitorios ++ " " ++ r.banos)

/-- `_filter_by_keywords` of `src/scraper.py`: a no-op on an empty frame or a
blank keyword string; otherwise one filter pass per lowered keyword, keeping
rows whose `texto_completo` contains it (the `re.escape`d pattern is a literal
and both sides are lowered, so `case=False` adds nothing). -/
def filter_by_keywords (df : List ListingRecord) (palabras_clave : String) :
    List ListingRecord :=
  if df.isEmpty || palabras_clave = "" || pyStrip palabras_clave = "" then df
  else
    (pySplit (pyLower palabras_clave)).foldl
      (fun acc p => acc.filter (fun r => strContains (texto_completo r) p)) df

-- -------------------- Nestoria --------------------

/-- `EXCEPCIONES` of `src/scraper.py`: the zone exception list of the Nestoria
URL builder. -/
def EXCEPCIONES : List String :=
  ["miraflores", "tarapoto", "la molina", "magdalena", "lambayeque",
   "ventanilla", "la victoria"]

/-- `build_zona_slug_nestoria` of `src/scraper.py`: blank input falls back to
`"lima"`; otherwise strip, lower, hyphenate, and prepend `"lima_"` exactly when
the hyphenated slug occurs in the lowered exception list. -/
def build_zona_slug_nestoria (zona_input : String) : String :=
  if zona_input = "" ∨ pyStrip zona_input = "" then "lima"
  else
    let z : String := ⟨(pyLower (pyStrip zona_input)).data.map
      (fun c => if c = ' ' then '-' else c)⟩
    if ¬ ((EXCEPCIONES.map pyLower).contains z) then z
    else "lima_" ++ z

/-- Leftmost occurrence of `(\d+)\s*pat`: the digit run of the first maximal
digit run that is followed, after optional whitespace, by the literal `pat`
(the regex backtracking inside a digit run can never succeed where the full
run fails, because `pat` starts with a non-digit). -/
def search_digits_before (pat : List Char) : List Char → Option (List Char)
  | [] => none
  | c :: cs =>
    if c.isDigit then
      if pat.isPrefixOf ((cs.dropWhile Char.isDigit).dropWhile Char.isWhitespace) then
        some (c :: cs.takeWhile Char.isDigit)
      else search_digits_before pat (cs.dropWhile Char.isDigit)
    else search_digits_before pat cs
termination_by l => l.length
decreasing_by
  all_goals
    have h := (List.dropWhile_suffix (l := cs) Char.isDigit).length_le
    simp only [List.length_cons]
    omega

/-- Leftmost occurrence of `(\d{1,4})\s*(m²|m2)`: within the first digit run
that is followed, after optional whitespace, by `m²` or `m2`, the match takes
the last at-most-four digits of the run (earlier starts leave a digit right
after the consumed group, which the pattern cannot absorb). -/
def search_m2 : List Char → Option (List Char)
  | [] => none
  | c :: cs =>
    if c.isDigit then
      let run := c :: cs.takeWhile Char.isDigit
      let rest := (cs.dropWhile Char.isDigit).dropWhile Char.isWhitespace
      if "m²".data.isPrefixOf rest || "m2".data.isPrefixOf rest then
        some (run.drop (run.length - 4))
      else search_m2 (cs.dropWhile Char.isDigit)
    else search_m2 cs
termination_by l => l.length
decreasing_by
  all_goals
    have h := (List.dropWhile_suffix (l := cs) Char.isDigit).length_le
    simp only [List.length_cons]
    omega

/-- One candidate `li` node of the Nestoria results page, by the texts the
library calls of the source extract from it: `has_a_tag` is whether any link
anchor was selected; `data_href`/`href` are its attributes (`""` when absent,
as Python's falsy `or`-chain treats them); the remaining fields are the texts
of the resolved title/price/description/image elements and the node's
flattened text (`li.get_text(" ", strip=True)`). -/
structure NestoriaItem where
  has_a_tag : Bool
  data_href : String
  href : String
  title_text : String
  price_text : String
  desc_text : String
  node_text : String
  img_url : String
deriving DecidableEq

/-- Link resolution of the Nestoria loop: `data-href or href or ""`, then
site-relative paths are made absolute. -/
def nestoria_link (it : NestoriaItem) : String :=
  let link0 := if it.data_href ≠ "" then it.data_href else it.href
  if link0 ≠ "" ∧ pyStartsWith link0 "/" then "https://www.nestoria.pe" ++ link0
  else link0

/-- Loop body of `scrape_nestoria` over one node: state is the emitted records
and the `seen_links` set.  Skips the node without a link anchor, with a blank
or already-seen link, or excluded by the early price check; otherwise emits the
record and remembers the link. -/
def scrape_nestoria_step (price_min price_max : Option Int)
    (st : List ListingRecord × List String) (it : NestoriaItem) :
    List ListingRecord × List String :=
  if ¬ it.has_a_tag then st
  else
    let link := nestoria_link it
    if link = "" ∨ st.2.contains link then st
    else
      let mv := parse_precio_con_moneda it.price_text
      let drop1 : Bool :=
        match price_max, mv.2 with
        | some m, some v => mv.1 == some "S" && decide ((v : Int) > m)
        | _, _ => false
      let drop2 : Bool :=
        match price_min, mv.2 with
        | some m, some v => mv.1 == some "S" && decide ((v : Int) < m)
        | _, _ => false
      let drop3 : Bool := mv.1 == some "USD" && (price_max.isSome || price_min.isSome)
      if drop1 || drop2 || drop3 then st
      else
        let text_content := pyLower it.node_text
        let rec_new : ListingRecord :=
          { titulo := it.title_text
            precio := it.price_text
            m2 := (search_m2 text_content.data).elim "" (fun l => ⟨l⟩)
            dormitorios := (search_digits_before "dormitori".data text_content.data).elim ""
              (fun l => ⟨l⟩)
            banos := (search_digits_before "bañ".data text_content.data).elim ""
              (fun l => ⟨l⟩)
            descripcion := it.desc_text
            link := link
            imagen_url := it.img_url }
        (st.1 ++ [rec_new], st.2 ++ [link])

/-- `scrape_nestoria` of `src/scraper.py`, from the selected candidate nodes
on (its URL building and fetching are the external collaborator; a failed
fetch is the empty node list).  Returns the emitted records in page order. -/
def scrape_nestoria (items : List NestoriaItem) (price_min price_max : Option Int) :
    List ListingRecord :=
  (items.foldl (scrape_nestoria_step price_min price_max) ([], [])).1

-- -------------------- Filtrado y Unificación --------------------

/-- `SCRAPERS` of `src/scraper.py`: the source registry in registration order;
the index stands for the registered scrape function, keying the run
environment. -/
def SCRAPERS : List (Nat × String) :=
  [(0, "nestoria"), (1, "infocasas"), (2, "properati"), (3, "doomos")]

/-- Sources whose keyword filtering `run_scrapers` skips. -/
def KEYWORD_EXEMPT : List String :=
  ["urbania", "doomos", "properati"]

/-- Column normalization of `run_scrapers` on one cell:
`.astype(str).str.strip().replace({None: "", "None": ""})`. -/
def norm_field (s : String) : String :=
  let t := pyStrip s
  if t = "None" then "" else t

/-- Column normalization of `run_scrapers` applied to a whole row. -/
def normalize_record (r : ListingRecord) : ListingRecord :=
  { titulo := norm_field r.titulo
    precio := norm_field r.precio
    m2 := norm_field r.m2
    dormitorios := norm_field r.dormitorios
    banos := norm_field r.banos
    descripcion := norm_field r.descripcion
    link := norm_field r.link
    imagen_url := norm_field r.imagen_url }

/-- One output row of `run_scrapers`: a listing plus the `fuente`,
`scraped_at` and `id` columns the aggregator stamps. -/
structure TaggedRecord where
  row : ListingRecord
  fuente : String
  scraped_at : String
  id : String
deriving DecidableEq

/-- Ambient data of one `run_scrapers` invocation: `fetch i` is what the
`i`-th registered scrape call produces for the run's arguments (an exception
or a frame), `now i` the timestamp taken while tagging its frame, and
`ids i j` the fresh identifier of that frame's `j`-th row. -/
structure ScrapeEnv where
  fetch : Nat → Except String (List ListingRecord)
  now : Nat → String
  ids : Nat → Nat → String

/-- Per-source pipeline of `run_scrapers`: exceptions become an empty frame,
the columns are normalized, the strict filter and (for non-exempt sources,
when keywords are given) the keyword filter are applied, and the surviving
rows are stamped with source, timestamp and identifier. -/
def source_frame (env : ScrapeEnv) (dormitorios banos : String)
    (price_min price_max : Option Int) (palabras_clave : String)
    (i : Nat) (name : String) : List TaggedRecord :=
  let df0 := match env.fetch i with
    | .ok l => l
    | .error _ => []
  let df1 := df0.map normalize_record
  let df2 := filter_df_strict df1 dormitorios banos price_min price_max
  let df3 :=
    if palabras_clave ≠ "" ∧ pyStrip palabras_clave ≠ "" ∧ ¬ KEYWORD_EXEMPT.contains name
    then filter_by_keywords df2 palabras_clave
    else df2
  df3.mapIdx (fun j r => { row := r, fuente := name, scraped_at := env.now i, id := env.ids i j })

/-- Dedup key of the final `drop_duplicates(subset=["link", "titulo"])`. -/
def dedup_key (t : TaggedRecord) : String × String :=
  (t.row.link, t.row.titulo)

/-- Worker of `drop_duplicates(..., keep="first")`: keeps an element iff its
key was not seen before. -/
def dedup_first_go {α κ : Type} [DecidableEq κ] (key : α → κ) (seen : List κ) :
    List α → List α
  | [] => []
  | x :: xs =>
    if key x ∈ seen then dedup_first_go key seen xs
    else x :: dedup_first_go key (key x :: seen) xs

/-- `drop_duplicates` keeping the first occurrence of every key. -/
def dedup_first {α κ : Type} [DecidableEq κ] (key : α → κ) (l : List α) : List α :=
  dedup_first_go key [] l

/-- `run_scrapers` of `src/scraper.py` over a run environment: collect the
nonempty per-source frames in registration order, return the empty table when
none remains, otherwise concatenate, drop rows whose link starts with `"#"`,
drop rows with an empty link, and deduplicate on (link, titulo) keeping the
first occurrence. -/
def run_scrapers (env : ScrapeEnv) (dormitorios banos : String)
    (price_min price_max : Option Int) (palabras_clave : String) :
    List TaggedRecord :=
  let frames :=
    (SCRAPERS.map (fun p =>
      source_frame env dormitorios banos price_min price_max palabras_clave p.1 p.2)).filter
      (fun f => ¬ f.isEmpty)
  if frames.isEmpty then []
  else
    let combined := frames.flatten
    let c1 := combined.filter (fun t => ¬ pyStartsWith t.row.link "#")
    let c2 := c1.filter (fun t => t.row.link ≠ "")
    dedup_first dedup_key c2

-- -------------------- Substring machinery --------------------

/-- Containment test characterized as list infix. -/
lemma containsL_iff_isInfix (l pat : List Char) : containsL l pat = true ↔ pat <:+: l := by
  unfold containsL
  simp only [List.any_eq_true]
  constructor
  · rintro ⟨t, ht, hp⟩
    rw [List.mem_tails] at ht
    rw [List.isPrefixOf_iff_prefix] at hp
    exact List.infix_iff_prefix_suffix.mpr ⟨t, hp, ht⟩
  · intro h
    obtain ⟨t, hp, ht⟩ := List.infix_iff_prefix_suffix.mp h
    exact ⟨t, (List.mem_tails _ _).mpr ht, List.isPrefixOf_iff_prefix.mpr hp⟩

/-- A stripped text is an infix of the original text. -/
lemma pyStripL_isInfix (l : List Char) : pyStripL l <:+: l := by
  unfold pyStripL lstripL
  have h1 : l.dropWhile Char.isWhitespace <:+ l := List.dropWhile_suffix _
  have h2 : ((l.dropWhile Char.isWhitespace).reverse.dropWhile Char.isWhitespace).reverse
      <+: l.dropWhile Char.isWhitespace := by
    have h3 := List.reverse_prefix.mpr
      (List.dropWhile_suffix (l := (l.dropWhile Char.isWhitespace).reverse) Char.isWhitespace)
    rwa [List.reverse_reverse] at h3
  exact h2.isInfix.trans h1.isInfix

/-- A pattern that starts the stripped text occurs in the text. -/
lemma containsL_of_isPrefixOf_pyStripL {pat l : List Char}
    (h : pat.isPrefixOf (pyStripL l) = true) : containsL l pat = true := by
  rw [List.isPrefixOf_iff_prefix] at h
  exact (containsL_iff_isInfix _ _).mpr (h.isInfix.trans (pyStripL_isInfix l))

/-- C4: `parse_precio_con_moneda` tags a price local (`"S"`) exactly when the
marker `"S/"` occurs (the redundant starts-with-after-strip disjunct adds
nothing), foreign (`"USD"`) exactly when `"$"` occurs without `"S/"`, and no
tag otherwise; its value is all digits of the text concatenated into one
number, absent when there is no digit; and the spec's three examples hold,
among them the empty string giving `(none, none)`. -/
theorem c4_parse_precio_con_moneda_spec (s : String) :
    parse_precio_con_moneda s =
      ((if strContains s "S/" then some "S"
        else if strContains s "$" then some "USD" else none),
       (if s.data.any Char.isDigit then some (natOfDigits (s.data.filter Char.isDigit))
        else none)) ∧
    parse_precio_con_moneda "S/ 1,200" = (some "S", some 1200) ∧
    parse_precio_con_moneda "$350" = (some "USD", some 350) ∧
    parse_precio_con_moneda "" = (none, none) := by
  refine ⟨?_, by decide, by decide, rfl⟩
  by_cases hs : s = ""
  · subst hs; rfl
  · have hm : (containsL s.data "S/".data || List.isPrefixOf "S/".data (pyStripL s.data))
        = containsL s.data "S/".data := by
      cases h : containsL s.data "S/".data with
      | true => simp
      | false =>
        cases h2 : List.isPrefixOf "S/".data (pyStripL s.data) with
        | false => simp
        | true => exact absurd (containsL_of_isPrefixOf_pyStripL h2) (by simp [h])
    have hv : (s.data.filter Char.isDigit).isEmpty = !s.data.any Char.isDigit := by
      cases h : s.data.any Char.isDigit with
      | true =>
        obtain ⟨x, hx, hd⟩ := List.any_eq_true.mp h
        have hx2 : x ∈ s.data.filter Char.isDigit := List.mem_filter.mpr ⟨hx, hd⟩
        simp only [Bool.not_true]
        rcases hfil : s.data.filter Char.isDigit with _ | ⟨a, as⟩
        · rw [hfil] at hx2; exact absurd hx2 (List.not_mem_nil x)
        · rfl
      | false =>
        simp only [Bool.not_false]
        rw [List.isEmpty_iff, List.filter_eq_nil_iff]
        intro a ha hd
        exact absurd (List.any_eq_true.mpr ⟨a, ha, hd⟩) (by simp [h])
    simp only [parse_precio_con_moneda, if_neg hs, strContains, hm, hv]
    cases h3 : s.data.any Char.isDigit <;> simp [h3]

-- -------------------- Filter engine lemmas --------------------

/-- The strict filter is the filter of its row mask (the empty-frame
short-circuit included). -/
lemma filter_df_strict_eq_filter (df : List ListingRecord) (dreq breq : String)
    (pmin pmax : Option Int) :
    filter_df_strict df dreq breq pmin pmax
      = df.filter (strict_mask dreq breq pmin pmax) := by
  cases df with
  | nil => rfl
  | cons a l => rfl

/-- Request-mask characterization, in the claim's terms. -/
lemma mask_req_iff (req cell : String) :
    mask_req req cell = true ↔
      ∀ k : Int, req ≠ "0" → pyStrip req ≠ "" → pythonInt req = some k →
        ∃ d, extract_int_from_text cell = some d ∧ (d : Int) = k := by
  unfold mask_req
  by_cases hg : req ≠ "" ∧ pyStrip req ≠ "" ∧ req ≠ "0"
  · rw [if_pos hg]
    cases hk : pythonInt req with
    | none =>
      simp only [true_iff]
      intro k _ _ heq
      exact absurd heq (by simp)
    | some k0 =>
      cases hd : extract_int_from_text cell with
      | none =>
        simp only [Bool.false_eq_true, false_iff]
        intro hall
        obtain ⟨d, hd2, _⟩ := hall k0 hg.2.2 hg.2.1 rfl
        exact absurd hd2 (by simp)
      | some d0 =>
        simp only [beq_iff_eq]
        constructor
        · intro he k _ _ hk2
          refine ⟨d0, rfl, ?_⟩
          rw [he]
          exact Option.some_inj.mp hk2
        · intro hall
          obtain ⟨d, hd2, he⟩ := hall k0 hg.2.2 hg.2.1 rfl
          rw [Option.some_inj.mp hd2]
          exact he
  · rw [if_neg hg]
    simp only [true_iff]
    intro k h0 hstrip hparse
    exact absurd ⟨fun he => hstrip (by rw [he]; rfl), hstrip, h0⟩ hg

/-- Price-mask characterization: only active when a bound is given, and with
the finite sentinels standing in for the missing bounds. -/
lemma mask_price_iff (pmin pmax : Option Int) (r : ListingRecord) :
    mask_price pmin pmax r = true ↔
      ((pmin ≠ none ∨ pmax ≠ none) →
        ∃ v, parse_price_soles r.precio = some v ∧
          pmin.getD (-(10 ^ 12)) ≤ (v : Int) ∧ (v : Int) ≤ pmax.getD (10 ^ 12)) := by
  unfold mask_price
  by_cases hb : pmin.isSome || pmax.isSome
  · rw [if_pos hb]
    have hante : pmin ≠ none ∨ pmax ≠ none := by
      rcases Bool.or_eq_true .. |>.mp hb with h | h
      · exact Or.inl (Option.isSome_iff_ne_none.mp h)
      · exact Or.inr (Option.isSome_iff_ne_none.mp h)
    cases hv : parse_price_soles r.precio with
    | none =>
      simp only [Bool.false_eq_true, false_iff]
      intro hall
      obtain ⟨v, hv2, _⟩ := hall hante
      exact absurd hv2 (by simp)
    | some v0 =>
      simp only [Bool.and_eq_true, decide_eq_true_eq]
      constructor
      · rintro ⟨h1, h2⟩ _
        exact ⟨v0, rfl, h1, h2⟩
      · intro hall
        obtain ⟨v, hv2, h1, h2⟩ := hall hante
        rw [Option.some_inj.mp hv2]
        exact ⟨h1, h2⟩
  · rw [if_neg hb]
    simp only [true_iff]
    intro hante
    rcases hante with h | h
    · exact absurd (by simp [Option.isSome_iff_ne_none.mpr h]) hb
    · exact absurd (by simp [Option.isSome_iff_ne_none.mpr h]) hb

/-- Row whose local-currency price exceeds the upper sentinel. -/
def c1_row : ListingRecord :=
  { titulo := "t", precio := "S/ 2000000000000", m2 := "", dormitorios := "",
    banos := "", descripcion := "", link := "http://x", imagen_url := "" }

/-- C1 (counterexample): with `price_min = 800` and no `price_max`, the claim
places the row's local-currency price `2000000000000` inside
`[800, +infinity)` and so retains it, yet `_filter_df_strict` drops it — the
missing bound is the sentinel `10^12`, not infinity. -/
theorem c1_infinite_bound_counterexample :
    parse_price_soles c1_row.precio = some 2000000000000 ∧
    (800 : Int) ≤ (2000000000000 : Int) ∧
    filter_df_strict [c1_row] "0" "0" (some 800) none = [] :=
  ⟨by decide, by decide, by decide⟩

/-- C1 (amended): a row passes `_filter_df_strict` iff it is in the input and
passes each active criterion — equality of the first extracted integer with a
parsed nonzero bedrooms/bathrooms request, and, when a price bound is given,
possession of a local-currency price inside the bounds with `-10^12` / `10^12`
standing in for an absent bound. -/
theorem c1_filter_df_strict_amended (df : List ListingRecord) (dreq breq : String)
    (pmin pmax : Option Int) (r : ListingRecord) :
    r ∈ filter_df_strict df dreq breq pmin pmax ↔
      r ∈ df ∧
      (∀ k : Int, dreq ≠ "0" → pyStrip dreq ≠ "" → pythonInt dreq = some k →
        ∃ d, extract_int_from_text r.dormitorios = some d ∧ (d : Int) = k) ∧
      (∀ k : Int, breq ≠ "0" → pyStrip breq ≠ "" → pythonInt breq = some k →
        ∃ d, extract_int_from_text r.banos = some d ∧ (d : Int) = k) ∧
      ((pmin ≠ none ∨ pmax ≠ none) →
        ∃ v, parse_price_soles r.precio = some v ∧
          pmin.getD (-(10 ^ 12)) ≤ (v : Int) ∧ (v : Int) ≤ pmax.getD (10 ^ 12)) := by
  rw [filter_df_strict_eq_filter, List.mem_filter]
  constructor
  · rintro ⟨hmem, hmask⟩
    simp only [strict_mask, Bool.and_eq_true] at hmask
    exact ⟨hmem, (mask_req_iff _ _).mp hmask.1.1, (mask_req_iff _ _).mp hmask.1.2,
      (mask_price_iff _ _ _).mp hmask.2⟩
  · rintro ⟨hmem, h1, h2, h3⟩
    refine ⟨hmem, ?_⟩
    simp only [strict_mask, Bool.and_eq_true]
    exact ⟨⟨(mask_req_iff _ _).mpr h1, (mask_req_iff _ _).mpr h2⟩,
      (mask_price_iff _ _ _).mpr h3⟩

/-- A request whose `int` parse fails leaves the request mask permissive. -/
lemma mask_req_of_parse_none {req : String} (h : pythonInt req = none) (cell : String) :
    mask_req req cell = true := by
  unfold mask_req
  split
  · rw [h]
  · rfl

/-- The request `"0"` deactivates its criterion. -/
lemma mask_req_zero (cell : String) : mask_req "0" cell = true := by
  unfold mask_req
  rw [if_neg]
  intro hg
  exact hg.2.2 rfl

/-- C9: a nonempty request other than `"0"` that does not parse as an integer
(for example `"abc"`) does not make `_filter_df_strict` raise; the bare
`except: pass` silently deactivates that criterion, so the result is the one
of the corresponding no-filter request `"0"`. -/
theorem c9_unparseable_request_is_inactive (df : List ListingRecord)
    (dreq breq : String) (pmin pmax : Option Int) :
    (pythonInt dreq = none →
      filter_df_strict df dreq breq pmin pmax = filter_df_strict df "0" breq pmin pmax) ∧
    (pythonInt breq = none →
      filter_df_strict df dreq breq pmin pmax = filter_df_strict df dreq "0" pmin pmax) := by
  constructor
  · intro h
    rw [filter_df_strict_eq_filter, filter_df_strict_eq_filter]
    apply List.filter_congr
    intro r _
    simp only [strict_mask, mask_dorm, mask_req_of_parse_none h, mask_req_zero]
  · intro h
    rw [filter_df_strict_eq_filter, filter_df_strict_eq_filter]
    apply List.filter_congr
    intro r _
    simp only [strict_mask, mask_banos, mask_req_of_parse_none h, mask_req_zero]

/-- Concrete instance of C9: the unparseable bedrooms request `"abc"` and the
unparseable bathrooms request `"x y"` each act as the no-filter request. -/
theorem c9_witness_example :
    (filter_df_strict [c1_row] "abc" "0" none none
      = filter_df_strict [c1_row] "0" "0" none none) ∧
    (filter_df_strict [c1_row] "2" "x y" none none
      = filter_df_strict [c1_row] "2" "0" none none) :=
  ⟨(c9_unparseable_request_is_inactive [c1_row] "abc" "0" none none).1 (by decide),
   (c9_unparseable_request_is_inactive [c1_row] "2" "x y" none none).2 (by decide)⟩

/-- Folding one filter per keyword equals a single filter of the
conjunction. -/
lemma foldl_filter_eq_filter_all {α : Type} (g : String → α → Bool) (ps : List String)
    (l : List α) :
    ps.foldl (fun acc p => acc.filter (g p)) l
      = l.filter (fun r => ps.all (fun p => g p r)) := by
  induction ps generalizing l with
  | nil => simp
  | cons p ps ih =>
    simp only [List.foldl_cons]
    rw [ih, List.filter_filter]
    apply List.filter_congr
    intro a _
    simp [Bool.and_comm]

/-- Lowercasing keeps whitespace whitespace. -/
lemma toLower_isWhitespace {c : Char} (h : c.isWhitespace = true) :
    (Char.toLower c).isWhitespace = true := by
  have h4 : ((c = ' ' ∨ c = '\t') ∨ c = '\x0d') ∨ c = '\n' := by
    simpa [Char.isWhitespace] using h
  rcases h4 with ((h5 | h5) | h5) | h5 <;> subst h5 <;> decide

/-- A text whose strip is empty is all whitespace. -/
lemma all_whitespace_of_pyStripL_eq_nil {l : List Char} (h : pyStripL l = []) :
    ∀ c ∈ l, c.isWhitespace = true := by
  unfold pyStripL lstripL at h
  rw [List.reverse_eq_nil_iff, List.dropWhile_eq_nil_iff] at h
  have hdrop : ∀ c ∈ l.dropWhile Char.isWhitespace, c.isWhitespace = true := by
    intro c hc
    exact h c (List.mem_reverse.mpr hc)
  intro c hc
  rw [← List.takeWhile_append_dropWhile (p := Char.isWhitespace) (l := l)] at hc
  rcases List.mem_append.mp hc with h1 | h1
  · exact List.mem_takeWhile_imp h1
  · exact hdrop c h1

/-- The whitespace tokenizer of an all-whitespace text yields nothing. -/
lemma wordsAux_nil_of_all_ws {l : List Char} (h : ∀ c ∈ l, c.isWhitespace = true) :
    wordsAux [] l = [] := by
  induction l with
  | nil => rfl
  | cons c cs ih =>
    unfold wordsAux
    rw [if_pos (h c (List.mem_cons_self c cs))]
    simp only [List.isEmpty_nil, if_true]
    exact ih (fun x hx => h x (List.mem_cons_of_mem c hx))

/-- A blank keyword string tokenizes, after lowering, to no keywords. -/
lemma pySplit_pyLower_nil_of_strip_empty {kw : String} (h : pyStrip kw = "") :
    pySplit (pyLower kw) = [] := by
  have hnil : pyStripL kw.data = [] := congrArg String.data h
  have hws := all_whitespace_of_pyStripL_eq_nil hnil
  unfold pySplit pyLower
  rw [wordsAux_nil_of_all_ws]
  · rfl
  · intro c hc
    obtain ⟨c0, hc0, rfl⟩ := List.mem_map.mp hc
    exact toLower_isWhitespace (hws c0 hc0)

/-- Normal form of `_filter_by_keywords`: a blank keyword string is the
identity; otherwise one filter requiring every lowered keyword to occur in
`texto_completo`. -/
lemma filter_by_keywords_eq (df : List ListingRecord) (kw : String) :
    filter_by_keywords df kw =
      if kw = "" ∨ pyStrip kw = "" then df
      else df.filter (fun r => (pySplit (pyLower kw)).all
        (fun p => strContains (texto_completo r) p)) := by
  by_cases hk : kw = "" ∨ pyStrip kw = ""
  · rw [if_pos hk]
    rcases hk with he | hs
    · subst he; simp [filter_by_keywords]
    · simp [filter_by_keywords, hs]
  · rw [if_neg hk]
    push_neg at hk
    cases df with
    | nil => simp [filter_by_keywords]
    | cons a l =>
      unfold filter_by_keywords
      rw [if_neg (by simp [hk.1, hk.2])]
      exact foldl_filter_eq_filter_all _ _ _

/-- C5: `_filter_by_keywords` retains a row iff every whitespace-separated,
lowered keyword occurs as a substring of the lowered concatenation of title,
description, area, bedrooms and bathrooms; a blank keyword string returns the
input unchanged. -/
theorem c5_filter_by_keywords_spec (df : List ListingRecord) (palabras_clave : String) :
    (pyStrip palabras_clave = "" → filter_by_keywords df palabras_clave = df) ∧
    (∀ r, r ∈ filter_by_keywords df palabras_clave ↔
      r ∈ df ∧ ∀ p ∈ pySplit (pyLower palabras_clave),
        strContains (texto_completo r) p = true) := by
  constructor
  · intro h
    rw [filter_by_keywords_eq, if_pos (Or.inr h)]
  · intro r
    rw [filter_by_keywords_eq]
    by_cases hk : palabras_clave = "" ∨ pyStrip palabras_clave = ""
    · rw [if_pos hk]
      have hnil : pySplit (pyLower palabras_clave) = [] := by
        rcases hk with he | hs
        · subst he; rfl
        · exact pySplit_pyLower_nil_of_strip_empty hs
      simp [hnil]
    · rw [if_neg hk, List.mem_filter]
      simp [List.all_eq_true]

/-- C6: both stages of the filter engine are idempotent — reapplying the
strict filter, or the keyword filter, to its own output with the same
arguments changes nothing (the embedding is pure, matching the source, which
works on `.copy()`s of its input frame). -/
theorem c6_filter_engine_idempotent (df : List ListingRecord) (dreq breq : String)
    (pmin pmax : Option Int) (palabras_clave : String) :
    filter_df_strict (filter_df_strict df dreq breq pmin pmax) dreq breq pmin pmax
      = filter_df_strict df dreq breq pmin pmax ∧
    filter_by_keywords (filter_by_keywords df palabras_clave) palabras_clave
      = filter_by_keywords df palabras_clave := by
  constructor
  · rw [filter_df_strict_eq_filter, filter_df_strict_eq_filter, List.filter_filter]
    apply List.filter_congr
    intro a _
    exact Bool.and_self _
  · rw [filter_by_keywords_eq, filter_by_keywords_eq]
    by_cases hk : palabras_clave = "" ∨ pyStrip palabras_clave = ""
    · simp only [if_pos hk]
    · simp only [if_neg hk]
      rw [List.filter_filter]
      apply List.filter_congr
      intro a _
      exact Bool.and_self _

/-- C8 (the code at the failing input): the multi-word zones of `EXCEPCIONES`
never receive the `"lima_"` prefix, because the slug is hyphenated before it
is compared against the space-containing list entries; a single-word listed
zone still gets the prefix, and an unlisted zone stays bare. -/
theorem c8_exception_list_never_matches_multiword :
    build_zona_slug_nestoria "la molina" = "la-molina" ∧
    build_zona_slug_nestoria "la victoria" = "la-victoria" ∧
    "la molina" ∈ EXCEPCIONES ∧ "la victoria" ∈ EXCEPCIONES ∧
    build_zona_slug_nestoria "miraflores" = "lima_miraflores" ∧
    build_zona_slug_nestoria "San Borja" = "san-borja" :=
  ⟨by decide, by decide, by decide, by decide, by decide, by decide⟩

-- -------------------- Aggregator lemmas --------------------

/-- Membership in the dedup worker: the element's key is unseen and the
element is the first of its key in the remaining input. -/
lemma mem_dedup_first_go_iff {α κ : Type} [DecidableEq κ] (key : α → κ) (t : α) :
    ∀ (l : List α) (seen : List κ),
      t ∈ dedup_first_go key seen l ↔
        key t ∉ seen ∧ ∃ l1 l2, l = l1 ++ t :: l2 ∧ ∀ u ∈ l1, key u ≠ key t := by
  intro l
  induction l with
  | nil =>
    intro seen
    simp only [dedup_first_go, List.not_mem_nil, false_iff]
    rintro ⟨_, l1, l2, heq, _⟩
    cases l1 <;> simp_all
  | cons x xs ih =>
    intro seen
    unfold dedup_first_go
    by_cases hx : key x ∈ seen
    · rw [if_pos hx, ih]
      constructor
      · rintro ⟨hns, l1, l2, heq, hl1⟩
        refine ⟨hns, x :: l1, l2, by rw [heq]; rfl, ?_⟩
        intro u hu
        rcases List.mem_cons.mp hu with rfl | hu2
        · intro hkey
          exact hns (hkey ▸ hx)
        · exact hl1 u hu2
      · rintro ⟨hns, l1, l2, heq, hl1⟩
        cases l1 with
        | nil =>
          simp only [List.nil_append, List.cons.injEq] at heq
          obtain ⟨rfl, rfl⟩ := heq
          exact absurd hx hns
        | cons y l1' =>
          simp only [List.cons_append, List.cons.injEq] at heq
          obtain ⟨rfl, hxs⟩ := heq
          exact ⟨hns, l1', l2, hxs, fun u hu => hl1 u (List.mem_cons_of_mem _ hu)⟩
    · rw [if_neg hx]
      rw [List.mem_cons, ih]
      constructor
      · rintro (rfl | ⟨hns, l1, l2, heq, hl1⟩)
        · exact ⟨hx, [], xs, rfl, by simp⟩
        · have hne : key t ≠ key x := fun h => hns (by simp [h])
          refine ⟨fun h => hns (List.mem_cons_of_mem _ h), x :: l1, l2, by rw [heq]; rfl, ?_⟩
          intro u hu
          rcases List.mem_cons.mp hu with rfl | hu2
          · exact fun h => hne h.symm
          · exact hl1 u hu2
      · rintro ⟨hns, l1, l2, heq, hl1⟩
        cases l1 with
        | nil =>
          simp only [List.nil_append, List.cons.injEq] at heq
          obtain ⟨rfl, rfl⟩ := heq
          exact Or.inl rfl
        | cons y l1' =>
          simp only [List.cons_append, List.cons.injEq] at heq
          obtain ⟨rfl, hxs⟩ := heq
          right
          have hkxt : key x ≠ key t := hl1 x (List.mem_cons_self _ _)
          refine ⟨?_, l1', l2, hxs, fun u hu => hl1 u (List.mem_cons_of_mem _ hu)⟩
          intro h
          rcases List.mem_cons.mp h with h2 | h2
          · exact hkxt h2.symm
          · exact hns h2

/-- Membership in `dedup_first`: exactly the first occurrence of every key
survives. -/
lemma mem_dedup_first_iff {α κ : Type} [DecidableEq κ] (key : α → κ) (l : List α)
    (t : α) :
    t ∈ dedup_first key l ↔
      ∃ l1 l2, l = l1 ++ t :: l2 ∧ ∀ u ∈ l1, key u ≠ key t := by
  unfold dedup_first
  rw [mem_dedup_first_go_iff]
  simp

/-- Skipping the empty frames does not change the concatenation. -/
lemma flatten_filter_nonempty {α : Type} (fs : List (List α)) :
    (fs.filter (fun f => ¬ f.isEmpty)).flatten = fs.flatten := by
  induction fs with
  | nil => rfl
  | cons f fs ih =>
    rw [List.filter_cons]
    by_cases hf : f.isEmpty
    · rw [if_neg (by simp [hf]), ih, List.flatten_cons, List.isEmpty_iff.mp hf,
        List.nil_append]
    · rw [if_pos (by simp [hf]), List.flatten_cons, List.flatten_cons, ih]

/-- A scrape call that raised contributes an empty frame. -/
lemma source_frame_of_fetch_error {env : ScrapeEnv} {i : Nat} {msg : String}
    (h : env.fetch i = .error msg) (d b : String) (pmin pmax : Option Int)
    (kw : String) (name : String) :
    source_frame env d b pmin pmax kw i name = [] := by
  unfold source_frame
  rw [h]
  simp [filter_df_strict, filter_by_keywords]

/-- C2: `run_scrapers` is exactly: concatenate the per-source frames in
registration order (nestoria, infocasas, properati, doomos), drop the rows
whose link is empty or starts with `"#"`, and keep the first occurrence of
every (link, titulo) pair — so records agreeing on link and title collapse to
the one of the earlier-registered source. -/
theorem c2_run_scrapers_combination (env : ScrapeEnv) (d b : String)
    (pmin pmax : Option Int) (kw : String) :
    run_scrapers env d b pmin pmax kw =
      dedup_first dedup_key
        ((source_frame env d b pmin pmax kw 0 "nestoria" ++
          source_frame env d b pmin pmax kw 1 "infocasas" ++
          source_frame env d b pmin pmax kw 2 "properati" ++
          source_frame env d b pmin pmax kw 3 "doomos").filter
          (fun t => ¬ (t.row.link = "" ∨ pyStartsWith t.row.link "#"))) ∧
    (∀ (l : List TaggedRecord) (t : TaggedRecord),
      t ∈ dedup_first dedup_key l ↔
        ∃ l1 l2, l = l1 ++ t :: l2 ∧ ∀ u ∈ l1, dedup_key u ≠ dedup_key t) := by
  refine ⟨?_, fun l t => mem_dedup_first_iff dedup_key l t⟩
  simp only [run_scrapers, SCRAPERS, List.map]
  by_cases hfe :
    (([source_frame env d b pmin pmax kw 0 "nestoria",
       source_frame env d b pmin pmax kw 1 "infocasas",
       source_frame env d b pmin pmax kw 2 "properati",
       source_frame env d b pmin pmax kw 3 "doomos"].filter
       (fun f => ¬ f.isEmpty))).isEmpty
  · rw [if_pos hfe]
    have h4 : ∀ f ∈ [source_frame env d b pmin pmax kw 0 "nestoria",
        source_frame env d b pmin pmax kw 1 "infocasas",
        source_frame env d b pmin pmax kw 2 "properati",
        source_frame env d b pmin pmax kw 3 "doomos"], f = [] := by
      intro f hf
      have he := List.isEmpty_iff.mp hfe
      rw [List.filter_eq_nil_iff] at he
      have := he f hf
      simpa using this
    have e0 := h4 (source_frame env d b pmin pmax kw 0 "nestoria") (by simp)
    have e1 := h4 (source_frame env d b pmin pmax kw 1 "infocasas") (by simp)
    have e2 := h4 (source_frame env d b pmin pmax kw 2 "properati") (by simp)
    have e3 := h4 (source_frame env d b pmin pmax kw 3 "doomos") (by simp)
    rw [e0, e1, e2, e3]
    rfl
  · rw [if_neg hfe]
    rw [flatten_filter_nonempty]
    have hflat : [source_frame env d b pmin pmax kw 0 "nestoria",
        source_frame env d b pmin pmax kw 1 "infocasas",
        source_frame env d b pmin pmax kw 2 "properati",
        source_frame env d b pmin pmax kw 3 "doomos"].flatten =
      source_frame env d b pmin pmax kw 0 "nestoria" ++
        source_frame env d b pmin pmax kw 1 "infocasas" ++
        source_frame env d b pmin pmax kw 2 "properati" ++
        source_frame env d b pmin pmax kw 3 "doomos" := by
      simp [List.flatten_cons, List.append_assoc]
    rw [hflat]
    apply congrArg (dedup_first dedup_key)
    rw [List.filter_filter]
    apply List.filter_congr
    intro t _
    by_cases h1 : t.row.link = "" <;> by_cases h2 : pyStartsWith t.row.link "#" <;>
      simp [h1, h2]

/-- C3: a run where every scrape call raises substitutes an empty frame for
each source and returns the empty table; in particular (the embedding being a
total function) no exception propagates out of `run_scrapers`, and one
source's failure leaves the others' processing untouched. -/
theorem c3_run_scrapers_all_fail_empty (env : ScrapeEnv) (d b : String)
    (pmin pmax : Option Int) (kw : String)
    (h : ∀ i : Nat, ∃ msg, env.fetch i = Except.error msg) :
    run_scrapers env d b pmin pmax kw = [] := by
  obtain ⟨m0, h0⟩ := h 0
  obtain ⟨m1, h1⟩ := h 1
  obtain ⟨m2, h2⟩ := h 2
  obtain ⟨m3, h3⟩ := h 3
  simp only [run_scrapers, SCRAPERS, List.map]
  rw [source_frame_of_fetch_error h0, source_frame_of_fetch_error h1,
    source_frame_of_fetch_error h2, source_frame_of_fetch_error h3]
  rfl

/-- Environment in which all four scrape calls raise. -/
def env_all_error : ScrapeEnv :=
  { fetch := fun _ => Except.error "boom", now := fun _ => "now", ids := fun _ _ => "id" }

/-- Concrete instance of C3: every source raising yields the empty table. -/
theorem c3_witness_all_fail :
    run_scrapers env_all_error "2" "1" (some 800) (some 1500) "piscina" = [] :=
  c3_run_scrapers_all_fail_empty env_all_error "2" "1" (some 800) (some 1500) "piscina"
    (fun _ => ⟨"boom", rfl⟩)

-- -------------------- Nestoria lemmas --------------------

/-- Boolean early-price-exclusion of the Nestoria loop, characterized: a
local-currency price strictly outside a given bound, or a foreign-currency
price while some bound was requested. -/
lemma nestoria_drop_iff (pmin pmax : Option Int) (mon : Option String)
    (val : Option Nat) :
    (((match pmax, val with
       | some m, some v => mon == some "S" && decide ((v : Int) > m)
       | _, _ => false) ||
      (match pmin, val with
       | some m, some v => mon == some "S" && decide ((v : Int) < m)
       | _, _ => false)) ||
     (mon == some "USD" && (pmax.isSome || pmin.isSome))) = true ↔
      ((∃ m, pmax = some m ∧ mon = some "S" ∧ ∃ v, val = some v ∧ m < (v : Int)) ∨
       (∃ m, pmin = some m ∧ mon = some "S" ∧ ∃ v, val = some v ∧ (v : Int) < m) ∨
       (mon = some "USD" ∧ (pmin ≠ none ∨ pmax ≠ none))) := by
  rcases pmax with _ | m1 <;> rcases pmin with _ | m2 <;> rcases val with _ | v <;>
    · first
      | (simp [beq_iff_eq, gt_iff_lt, and_assoc, or_comm]; tauto)
      | simp [beq_iff_eq, gt_iff_lt, and_assoc, or_comm]

/-- C7: a Nestoria candidate that passed the link gates (an anchor exists, the
resolved link is nonblank and unseen) is skipped by the loop body exactly when
a price bound was supplied and its parsed local-currency price falls strictly
below `price_min` or strictly above `price_max`, or when its parsed price is
foreign currency while some bound was requested; with no bound supplied the
price check never drops it. -/
theorem c7_nestoria_price_exclusion (price_min price_max : Option Int)
    (st : List ListingRecord × List String) (it : NestoriaItem)
    (htag : it.has_a_tag = true)
    (hlink : nestoria_link it ≠ "")
    (hseen : st.2.contains (nestoria_link it) = false) :
    (scrape_nestoria_step price_min price_max st it = st ↔
      ((∃ m, price_max = some m ∧ (parse_precio_con_moneda it.price_text).1 = some "S" ∧
         ∃ v, (parse_precio_con_moneda it.price_text).2 = some v ∧ m < (v : Int)) ∨
       (∃ m, price_min = some m ∧ (parse_precio_con_moneda it.price_text).1 = some "S" ∧
         ∃ v, (parse_precio_con_moneda it.price_text).2 = some v ∧ (v : Int) < m) ∨
       ((parse_precio_con_moneda it.price_text).1 = some "USD" ∧
         (price_min ≠ none ∨ price_max ≠ none)))) ∧
    (price_min = none → price_max = none →
      scrape_nestoria_step price_min price_max st it ≠ st) := by
  obtain ⟨s1, s2⟩ := st
  have hseen2 : nestoria_link it ∉ s2 := by simpa using hseen
  have hmain : scrape_nestoria_step price_min price_max (s1, s2) it = (s1, s2) ↔
      ((∃ m, price_max = some m ∧ (parse_precio_con_moneda it.price_text).1 = some "S" ∧
         ∃ v, (parse_precio_con_moneda it.price_text).2 = some v ∧ m < (v : Int)) ∨
       (∃ m, price_min = some m ∧ (parse_precio_con_moneda it.price_text).1 = some "S" ∧
         ∃ v, (parse_precio_con_moneda it.price_text).2 = some v ∧ (v : Int) < m) ∨
       ((parse_precio_con_moneda it.price_text).1 = some "USD" ∧
         (price_min ≠ none ∨ price_max ≠ none))) := by
    rw [← nestoria_drop_iff price_min price_max (parse_precio_con_moneda it.price_text).1
      (parse_precio_con_moneda it.price_text).2]
    unfold scrape_nestoria_step
    rw [if_neg (by simp [htag])]
    rw [if_neg (by simp [hlink, hseen2])]
    by_cases hd :
      (((match price_max, (parse_precio_con_moneda it.price_text).2 with
         | some m, some v => (parse_precio_con_moneda it.price_text).1 == some "S"
             && decide ((v : Int) > m)
         | _, _ => false) ||
        (match price_min, (parse_precio_con_moneda it.price_text).2 with
         | some m, some v => (parse_precio_con_moneda it.price_text).1 == some "S"
             && decide ((v : Int) < m)
         | _, _ => false)) ||
       ((parse_precio_con_moneda it.price_text).1 == some "USD"
           && (price_max.isSome || price_min.isSome))) = true
    · rw [if_pos hd]
      simp [hd]
    · rw [if_neg hd]
      apply iff_of_false
      · intro heq
        have hfst : s1 ++ _ = s1 := (Prod.mk.injEq .. |>.mp heq).1
        exact absurd (congrArg List.length hfst) (by simp)
      · exact hd
  refine ⟨hmain, fun hmin hmax => ?_⟩
  rw [ne_eq, hmain, hmin, hmax]
  rintro (⟨m, hm, _⟩ | ⟨m, hm, _⟩ | ⟨_, h | h⟩) <;> simp_all

/-- Concrete instance of C7: a local price of 2000 soles with
`price_max = 1500` is dropped by the extraction-time check. -/
theorem c7_witness_drop :
    scrape_nestoria_step none (some 1500) ([], [])
      { has_a_tag := true, data_href := "", href := "/dep-1", title_text := "T",
        price_text := "S/ 2000", desc_text := "", node_text := "", img_url := "" }
      = ([], []) :=
  (c7_nestoria_price_exclusion none (some 1500) ([], [])
      { has_a_tag := true, data_href := "", href := "/dep-1", title_text := "T",
        price_text := "S/ 2000", desc_text := "", node_text := "", img_url := "" }
      rfl (by decide) rfl).1.mpr
    (Or.inl ⟨1500, rfl, by decide, 2000, by decide, by decide⟩)

/-- One loop step keeps the invariant: every emitted link is in `seen_links`,
and the emitted links are pairwise distinct. -/
lemma scrape_nestoria_step_inv (price_min price_max : Option Int)
    (st : List ListingRecord × List String) (it : NestoriaItem)
    (h1 : ∀ r ∈ st.1, r.link ∈ st.2)
    (h2 : (st.1.map ListingRecord.link).Nodup) :
    (∀ r ∈ (scrape_nestoria_step price_min price_max st it).1,
      r.link ∈ (scrape_nestoria_step price_min price_max st it).2) ∧
    ((scrape_nestoria_step price_min price_max st it).1.map ListingRecord.link).Nodup := by
  unfold scrape_nestoria_step
  by_cases htag : it.has_a_tag = true
  case neg =>
    rw [if_pos htag]
    exact ⟨h1, h2⟩
  case pos =>
    rw [if_neg (by simp [htag])]
    by_cases hgate : nestoria_link it = "" ∨ st.2.contains (nestoria_link it) = true
    · rw [if_pos hgate]
      exact ⟨h1, h2⟩
    · rw [if_neg hgate]
      push_neg at hgate
      have hnotseen : nestoria_link it ∉ st.2 := by
        intro hmem
        exact absurd (by simpa using hmem) hgate.2
      by_cases hd :
        (((match price_max, (parse_precio_con_moneda it.price_text).2 with
           | some m, some v => (parse_precio_con_moneda it.price_text).1 == some "S"
               && decide ((v : Int) > m)
           | _, _ => false) ||
          (match price_min, (parse_precio_con_moneda it.price_text).2 with
           | some m, some v => (parse_precio_con_moneda it.price_text).1 == some "S"
               && decide ((v : Int) < m)
           | _, _ => false)) ||
         ((parse_precio_con_moneda it.price_text).1 == some "USD"
             && (price_max.isSome || price_min.isSome))) = true
      · rw [if_pos hd]
        exact ⟨h1, h2⟩
      · rw [if_neg hd]
        constructor
        · intro r hr
          rcases List.mem_append.mp hr with hrl | hrl
          · exact List.mem_append_left _ (h1 r hrl)
          · rw [List.mem_singleton.mp hrl]
            exact List.mem_append_right _ (List.mem_singleton_self _)
        · rw [List.map_append, List.nodup_append]
          refine ⟨h2, by simp, ?_⟩
          intro a ha hb
          simp only [List.map_cons, List.map_nil, List.mem_singleton] at hb
          subst hb
          obtain ⟨r, hr, hrl⟩ := List.mem_map.mp ha
          exact hnotseen (hrl ▸ h1 r hr)

/-- The whole loop keeps the invariant. -/
lemma scrape_nestoria_loop_inv (price_min price_max : Option Int) :
    ∀ (items : List NestoriaItem) (st : List ListingRecord × List String),
      (∀ r ∈ st.1, r.link ∈ st.2) → (st.1.map ListingRecord.link).Nodup →
      (∀ r ∈ (items.foldl (scrape_nestoria_step price_min price_max) st).1,
        r.link ∈ (items.foldl (scrape_nestoria_step price_min price_max) st).2) ∧
      ((items.foldl (scrape_nestoria_step price_min price_max) st).1.map
        ListingRecord.link).Nodup := by
  intro items
  induction items with
  | nil => exact fun st h1 h2 => ⟨h1, h2⟩
  | cons it its ih =>
    intro st h1 h2
    rw [List.foldl_cons]
    have hstep := scrape_nestoria_step_inv price_min price_max st it h1 h2
    exact ih _ hstep.1 hstep.2

/-- C10: every record sequence `scrape_nestoria` returns has pairwise distinct
links — a node whose resolved link was already emitted is skipped, so the
extractor deduplicates by link within one page on its own. -/
theorem c10_scrape_nestoria_links_nodup (items : List NestoriaItem)
    (price_min price_max : Option Int) :
    ((scrape_nestoria items price_min price_max).map ListingRecord.link).Nodup :=
  (scrape_nestoria_loop_inv price_min price_max items ([], [])
    (by simp) (by simp)).2
